import Mathlib

/-!
# Cloud Foundry BBS cache and auto-discovery provider

A shallow embedding of

* `pkg/util/cloudfoundry/types.go`  (record conversion, action-tree traversal),
* `pkg/util/cloudfoundry/bbscache.go` (global cache configuration, refresh cycle, accessors),
* `pkg/autodiscovery/providers/cloudfoundry.go` (template collection),

followed by the properties established about them.

Conventions.  A Go `string` is a Lean `String`; Go's `len` is the length in bytes
(`String.utf8ByteSize`).  The result of a Go slice expression on a string is kept as the
list of its bytes, because a cut inside a multi-byte character is not a valid `String`.
A Go run-time panic is the `Fault` carried by `Except.error`.
Slices are lists; `append(s, x)` is `s ++ [x]` and `append(s, xs...)` is `s ++ xs`.
-/

namespace cloudfoundry

/-! ## Constants and data model (`types.go`) -/

def ENV_AD_VARIABLE_NAME : String := "AD_DATADOGHQ_COM"

def ENV_VCAP_SERVICES_VARIABLE_NAME : String := "VCAP_SERVICES"

/-- The bytes of a Go string: the UTF-8 encoding of its characters, one after the other. -/
def goBytes (s : String) : List UInt8 :=
  s.data.flatMap String.utf8EncodeChar

/-- Ways in which a computation can end other than by returning a value.
`sliceBoundsOutOfRange` is the Go run-time panic raised by a slice expression whose
bounds exceed the length of the operand.  `identifierFormat` is the reportable
`IdentifierFormatFault` of the specification; no source function constructs it. -/
inductive Fault
  | sliceBoundsOutOfRange
  | identifierFormat
  deriving DecidableEq, Repr

/-- Modelled from the spec: the declaration of `models.EnvironmentVariable` (package
`code.cloudfoundry.org/bbs/models`) is not part of the sources; it is a name/value pair.
The entries of an `Env` slice, like the records of a fetched list, are non-nil pointers. -/
structure EnvironmentVariable where
  Name : String
  Value : String
  deriving DecidableEq, Repr

/-- Modelled from the spec: the declaration of `models.Action` is not part of the sources.
The specification describes it as a tagged variant with one case per action kind, each
carrying its children or its environment.  `nil` is the nil pointer (every `Get…Action`
accessor of a nil action returns nil); `download` and `upload` are the variants the
traversal has no branch for. -/
inductive Action
  | nil
  | download
  | upload
  | run (Env : List EnvironmentVariable)
  | timeout (Action : Action)
  | emitProgress (Action : Action)
  | tryAction (Action : Action)
  | parallel (Actions : List Action)
  | serial (Actions : List Action)
  | codependent (Actions : List Action)

/-- Modelled from the spec: the fields of `models.ActualLRP` that the conversion reads. -/
structure BBSActualLRP where
  ProcessGuid : String
  CellId : String
  deriving DecidableEq, Repr

/-- Modelled from the spec: the fields of `models.DesiredLRP` that the conversion reads. -/
structure BBSDesiredLRP where
  ProcessGuid : String
  Action : Action

structure ActualLRP where
  AppGUID : List UInt8
  CellID : String
  ProcessGUID : String
  deriving DecidableEq, Repr

structure DesiredLRP where
  AppGUID : List UInt8
  EnvAD : String
  EnvVcapServices : String
  ProcessGUID : String
  deriving DecidableEq, Repr

/-! ## Action-tree traversal -/

mutual
/-- Number of nodes of an action tree (the nil pointer counts as one queue entry). -/
def Action.size : Action → Nat
  | .nil => 1
  | .download => 1
  | .upload => 1
  | .run _ => 1
  | .timeout a => a.size + 1
  | .emitProgress a => a.size + 1
  | .tryAction a => a.size + 1
  | .parallel as => Action.sizeList as + 1
  | .serial as => Action.sizeList as + 1
  | .codependent as => Action.sizeList as + 1
/-- Total number of nodes of a list of action trees. -/
def Action.sizeList : List Action → Nat
  | [] => 0
  | a :: as => a.size + Action.sizeList as
end

/-- The queue loop of `DesiredLRPFromBBSModel` (`for len(actionQueue) > 0 { … }`):
the head of the queue is removed; a run action appends its environment to `actionEnvs`,
a wrapping action appends its child to the queue, a grouping action appends all its
children, and anything else is dropped. -/
def actionQueueLoop : List Action → List (List EnvironmentVariable) →
    List (List EnvironmentVariable)
  | [], actionEnvs => actionEnvs
  | action :: actionQueue, actionEnvs =>
    match action with
    | .run env => actionQueueLoop actionQueue (actionEnvs ++ [env])
    | .timeout a => actionQueueLoop (actionQueue ++ [a]) actionEnvs
    | .emitProgress a => actionQueueLoop (actionQueue ++ [a]) actionEnvs
    | .tryAction a => actionQueueLoop (actionQueue ++ [a]) actionEnvs
    | .parallel as => actionQueueLoop (actionQueue ++ as) actionEnvs
    | .serial as => actionQueueLoop (actionQueue ++ as) actionEnvs
    | .codependent as => actionQueueLoop (actionQueue ++ as) actionEnvs
    | .nil => actionQueueLoop actionQueue actionEnvs
    | .download => actionQueueLoop actionQueue actionEnvs
    | .upload => actionQueueLoop actionQueue actionEnvs
termination_by q _ => Action.sizeList q
decreasing_by
  all_goals
    have happ : ∀ xs ys : List Action,
        Action.sizeList (xs ++ ys) = Action.sizeList xs + Action.sizeList ys := by
      intro xs ys
      induction xs with
      | nil => simp [Action.sizeList]
      | cons a xs ih => simp [Action.sizeList, ih, Nat.add_assoc]
    simp only [happ, Action.sizeList, Action.size]
    omega

/-- The inner loop `for _, ev := range envVars { … }`: an entry named
`AD_DATADOGHQ_COM` overwrites `envAD`, otherwise an entry named `VCAP_SERVICES`
overwrites `envVS`.  The state is the pair `(envAD, envVS)`. -/
def scanEnvVars : List EnvironmentVariable → String × String → String × String
  | [], st => st
  | ev :: rest, (envAD, envVS) =>
    if ev.Name = ENV_AD_VARIABLE_NAME then scanEnvVars rest (ev.Value, envVS)
    else if ev.Name = ENV_VCAP_SERVICES_VARIABLE_NAME then scanEnvVars rest (envAD, ev.Value)
    else scanEnvVars rest (envAD, envVS)

/-- The outer loop `for _, envVars := range actionEnvs { … }` with its
`if envAD != "" { break }` after each list. -/
def scanActionEnvs : List (List EnvironmentVariable) → String × String → String × String
  | [], st => st
  | envVars :: rest, st =>
    let st1 := scanEnvVars envVars st
    if st1.1 ≠ "" then st1 else scanActionEnvs rest st1

/-- The slice expression `processGUID[0:36]`: a run-time panic when the string has fewer
than 36 bytes, its first 36 bytes otherwise. -/
def appGUIDFromProcessGUID (processGUID : String) : Except Fault (List UInt8) :=
  if processGUID.utf8ByteSize < 36 then .error .sliceBoundsOutOfRange
  else .ok ((goBytes processGUID).take 36)

def ActualLRPFromBBSModel (bbsLRP : BBSActualLRP) : Except Fault ActualLRP := do
  let appGUID ← appGUIDFromProcessGUID bbsLRP.ProcessGuid
  pure { AppGUID := appGUID, CellID := bbsLRP.CellId, ProcessGUID := bbsLRP.ProcessGuid }

def DesiredLRPFromBBSModel (bbsLRP : BBSDesiredLRP) : Except Fault DesiredLRP := do
  let actionEnvs := actionQueueLoop [bbsLRP.Action] []
  let (envAD, envVS) := scanActionEnvs actionEnvs ("", "")
  let appGUID ← appGUIDFromProcessGUID bbsLRP.ProcessGuid
  pure { AppGUID := appGUID, EnvAD := envAD, EnvVcapServices := envVS,
         ProcessGUID := bbsLRP.ProcessGuid }

/-! ## Level order of an action tree (reference definition) -/

mutual
/-- Environment lists of the run actions that sit exactly `d` levels below the root of an
action tree, from left to right.  Only the six composite kinds have children. -/
def Action.envsAtDepth : Action → Nat → List (List EnvironmentVariable)
  | .run env, 0 => [env]
  | .run _, _ + 1 => []
  | .nil, _ => []
  | .download, _ => []
  | .upload, _ => []
  | .timeout _, 0 => []
  | .timeout a, d + 1 => a.envsAtDepth d
  | .emitProgress _, 0 => []
  | .emitProgress a, d + 1 => a.envsAtDepth d
  | .tryAction _, 0 => []
  | .tryAction a, d + 1 => a.envsAtDepth d
  | .parallel _, 0 => []
  | .parallel as, d + 1 => Action.envsAtDepthList as d
  | .serial _, 0 => []
  | .serial as, d + 1 => Action.envsAtDepthList as d
  | .codependent _, 0 => []
  | .codependent as, d + 1 => Action.envsAtDepthList as d
/-- Environment lists at depth `d` of a list of trees, tree after tree. -/
def Action.envsAtDepthList : List Action → Nat → List (List EnvironmentVariable)
  | [], _ => []
  | a :: as, d => a.envsAtDepth d ++ Action.envsAtDepthList as d
end

mutual
/-- Number of levels of an action tree. -/
def Action.height : Action → Nat
  | .nil => 1
  | .download => 1
  | .upload => 1
  | .run _ => 1
  | .timeout a => a.height + 1
  | .emitProgress a => a.height + 1
  | .tryAction a => a.height + 1
  | .parallel as => Action.heightList as + 1
  | .serial as => Action.heightList as + 1
  | .codependent as => Action.heightList as + 1
/-- Largest number of levels among a list of trees. -/
def Action.heightList : List Action → Nat
  | [] => 0
  | a :: as => max a.height (Action.heightList as)
end

/-- Level order: the run environments of depth 0, then those of depth 1, and so on, each
level from left to right. -/
def Action.levelOrder (a : Action) : List (List EnvironmentVariable) :=
  (List.range a.height).flatMap (fun d => a.envsAtDepth d)

/-- Children that the queue loop appends when it visits a node. -/
def Action.children : Action → List Action
  | .timeout a => [a]
  | .emitProgress a => [a]
  | .tryAction a => [a]
  | .parallel as => as
  | .serial as => as
  | .codependent as => as
  | _ => []

/-- Environment that the queue loop records when it visits a node. -/
def Action.recorded : Action → List (List EnvironmentVariable)
  | .run env => [env]
  | _ => []


/-! ## Reference definitions for the environment scan -/

/-- Value of the first entry of an environment list that carries the given name. -/
def valueIn (name : String) (envVars : List EnvironmentVariable) : Option String :=
  (envVars.find? (fun ev => ev.Name = name)).map (fun ev => ev.Value)

/-- Value of the last entry of a sequence of entries that carries the given name. -/
def lastValue (name : String) : List EnvironmentVariable → Option String
  | [] => none
  | ev :: rest => (lastValue name rest).or (if ev.Name = name then some ev.Value else none)

/-- First-match-wins, in the words of the specification: the value of the variable in the
first list where that value is non-empty, and the empty string when there is no such
list. -/
def firstNonEmptyValue (name : String) : List (List EnvironmentVariable) → String
  | [] => ""
  | envVars :: rest =>
    match valueIn name envVars with
    | some v => if v ≠ "" then v else firstNonEmptyValue name rest
    | none => firstNonEmptyValue name rest

/-- Last-match-wins, in the words of the specification: the last non-empty value of the
variable over all the lists, and the empty string when there is none. -/
def lastNonEmptyValue (name : String) (actionEnvs : List (List EnvironmentVariable)) : String :=
  match (actionEnvs.flatten.filter (fun ev => ev.Name = name ∧ ev.Value ≠ "")).getLast? with
  | some ev => ev.Value
  | none => ""

/-- The lists that the outer loop of `DesiredLRPFromBBSModel` actually scans: every list up
to and including the first one that leaves `envAD` non-empty. -/
def scannedLists : List (List EnvironmentVariable) → List (List EnvironmentVariable)
  | [] => []
  | envVars :: rest =>
    if (lastValue ENV_AD_VARIABLE_NAME envVars).getD "" ≠ "" then [envVars]
    else envVars :: scannedLists rest

/-! ## The cache (`bbscache.go`) -/

/-- Modelled from the spec: `config.ConfigurationProviders` is declared outside the
sources; only its `TemplateURL` is read. -/
structure ConfigurationProviders where
  TemplateURL : String
  deriving DecidableEq, Repr

/-- Modelled from the spec: the fields of `bbs.ClientConfig` that `ConfigureGlobalBBSCache`
sets to something other than the zero value (`RequestTimeout` in seconds). -/
structure ClientConfig where
  URL : String
  IsTLS : Bool
  InsecureSkipVerify : Bool
  Retries : Nat
  RequestTimeout : Nat
  deriving DecidableEq, Repr

/-- Modelled from the spec: a constructed `bbs.Client`, known by the configuration it was
built from. -/
structure Client where
  config : ClientConfig
  deriving DecidableEq, Repr

/-- The cache object.  `bbsAPIClient` is `none` for the nil interface value;
`pollInterval` is in seconds.  The embedded lock has no state of its own here: each
locked section is one atomic transition. -/
structure BBSCache where
  configured : Bool
  bbsAPIClient : Option Client
  pollInterval : Nat
  actualLRPs : List ActualLRP
  desiredLRPs : List DesiredLRP
  deriving DecidableEq, Repr

/-- Process-wide state: the object behind `globalBBSCache` (initially `&BBSCache{}`),
the number of `go globalBBSCache.start()` statements executed so far, and the number of
calls made to `bbs.NewClientWithConfig`. -/
structure GlobalState where
  globalBBSCache : BBSCache
  startedRefreshTasks : Nat
  clientConstructions : Nat
  deriving DecidableEq, Repr

/-- The initial process-wide state. -/
def GlobalState.initial : GlobalState :=
  { globalBBSCache := { configured := false, bbsAPIClient := none, pollInterval := 0,
                        actualLRPs := [], desiredLRPs := [] },
    startedRefreshTasks := 0, clientConstructions := 0 }

/-- What a call hands back: the pointer `globalBBSCache`. -/
inductive CacheHandle
  | globalBBSCache
  deriving DecidableEq, Repr

/-- `ConfigureGlobalBBSCache`, run under `globalBBSCacheLock`.  The constructor
`bbs.NewClientWithConfig` is passed in as `newClientWithConfig`; on failure it yields the nil
client together with the error. -/
def ConfigureGlobalBBSCache (newClientWithConfig : ClientConfig → Except String Client)
    (conf : ConfigurationProviders) (g : GlobalState) : Except String CacheHandle × GlobalState :=
  if g.globalBBSCache.configured then
    (.ok .globalBBSCache, g)
  else
    let clientConfig : ClientConfig :=
      { URL := conf.TemplateURL, IsTLS := false, InsecureSkipVerify := true,
        Retries := 10, RequestTimeout := 5 }
    let result := newClientWithConfig clientConfig
    let cache : BBSCache :=
      { g.globalBBSCache with
        configured := true
        bbsAPIClient := result.toOption
        pollInterval := 3 }
    match result with
    | .error err =>
      (.error err, { g with globalBBSCache := cache,
                            clientConstructions := g.clientConstructions + 1 })
    | .ok _ =>
      (.ok .globalBBSCache, { globalBBSCache := cache,
                              startedRefreshTasks := g.startedRefreshTasks + 1,
                              clientConstructions := g.clientConstructions + 1 })

def BBSCache.GetActualLRPs (bc : BBSCache) : List ActualLRP := bc.actualLRPs

def BBSCache.GetDesiredLRPs (bc : BBSCache) : List DesiredLRP := bc.desiredLRPs

/-- The loop `for i, lrp := range records { out[i] = convert(lrp) }`; a panic in any
conversion ends the whole computation. -/
def convertAll {α β : Type} (convert : α → Except Fault β) : List α → Except Fault (List β)
  | [] => .ok []
  | lrp :: rest => do
    let c ← convert lrp
    let cs ← convertAll convert rest
    pure (c :: cs)

/-- `readActualLRPs`; the argument is the outcome of the remote call
`bbsAPIClient.ActualLRPs`.  The Go pair `(slice, error)` is returned as is. -/
def BBSCache.readActualLRPs (response : Except String (List BBSActualLRP)) :
    Except Fault (List ActualLRP × Option String) :=
  match response with
  | .error err => .ok ([], some err)
  | .ok actualLRPsBBS => do
    let actualLRPs ← convertAll ActualLRPFromBBSModel actualLRPsBBS
    pure (actualLRPs, none)

/-- `readDesiredLRPs`; the argument is the outcome of `bbsAPIClient.DesiredLRPs`. -/
def BBSCache.readDesiredLRPs (response : Except String (List BBSDesiredLRP)) :
    Except Fault (List DesiredLRP × Option String) :=
  match response with
  | .error err => .ok ([], some err)
  | .ok desiredLRPsBBS => do
    let desiredLRPs ← convertAll DesiredLRPFromBBSModel desiredLRPsBBS
    pure (desiredLRPs, none)

/-- The locked section at the end of `readData`: both fields are assigned while the write
lock is held. -/
def BBSCache.publish (bc : BBSCache) (actualLRPs : List ActualLRP)
    (desiredLRPs : List DesiredLRP) : BBSCache :=
  { bc with actualLRPs := actualLRPs, desiredLRPs := desiredLRPs }

/-- One refresh cycle.  Both readers run to completion (`wg.Wait()`), so a panic in either
ends the process; otherwise an error from either call returns before the locked
section. -/
def BBSCache.readData (bc : BBSCache) (responseActual : Except String (List BBSActualLRP))
    (responseDesired : Except String (List BBSDesiredLRP)) : Except Fault BBSCache := do
  let (actualLRPs, errActual) ← BBSCache.readActualLRPs responseActual
  let (desiredLRPs, errDesired) ← BBSCache.readDesiredLRPs responseDesired
  if errActual.isSome then
    pure bc
  else if errDesired.isSome then
    pure bc
  else
    pure (bc.publish actualLRPs desiredLRPs)

/-- The cache after a sequence of publishing refresh cycles. -/
def BBSCache.afterCycles (bc : BBSCache) :
    List (List ActualLRP × List DesiredLRP) → BBSCache
  | [] => bc
  | cycle :: rest => (bc.publish cycle.1 cycle.2).afterCycles rest

/-- What a reader obtains that calls `GetActualLRPs` after the cycles `before` and then
`GetDesiredLRPs` after the further cycles `between`. -/
def BBSCache.readerObserves (bc : BBSCache)
    (before between : List (List ActualLRP × List DesiredLRP)) :
    List ActualLRP × List DesiredLRP :=
  ((bc.afterCycles before).GetActualLRPs, (bc.afterCycles (before ++ between)).GetDesiredLRPs)

/-- The pair of halves that is published once the first `n` cycles of `cycles` are
complete (`n = 0`: the initial state). -/
def BBSCache.snapshotAfter (bc : BBSCache) (cycles : List (List ActualLRP × List DesiredLRP))
    (n : Nat) : List ActualLRP × List DesiredLRP :=
  ((bc.afterCycles (cycles.take n)).actualLRPs, (bc.afterCycles (cycles.take n)).desiredLRPs)

end cloudfoundry

/-! ## The configuration provider (`providers/cloudfoundry.go`) -/

namespace providers

open cloudfoundry

/-- A Go `map[string]V`, as the list of its entries; keys are pairwise distinct because
entries are only added by `goMapInsert`. -/
abbrev GoMap (V : Type) := List (String × V)

/-- The assignment `m[k] = v`. -/
def goMapInsert {V : Type} : GoMap V → String → V → GoMap V
  | [], k, v => [(k, v)]
  | (k1, v1) :: rest, k, v =>
    if k1 = k then (k, v) :: rest else (k1, v1) :: goMapInsert rest k v

/-- Lookup `m[k]` with its presence flag. -/
def goMapLookup {V : Type} : GoMap V → String → Option V
  | [], _ => none
  | (k1, v1) :: rest, k => if k1 = k then some v1 else goMapLookup rest k

/-- Value of a member of the top-level JSON object, as far as decoding into
`map[string]json.RawMessage` looks at it: `null`, an object (field names with the raw text
of their values), or anything else (a string, a number, a boolean or an array). -/
inductive JSONMember
  | null
  | object (fields : List (String × String))
  | other
  deriving DecidableEq, Repr

/-- A syntactically valid JSON text, as far as decoding into
`map[string]map[string]json.RawMessage` looks at it. -/
inductive JSONDocument
  | null
  | object (members : List (String × JSONMember))
  | other
  deriving DecidableEq, Repr

/-- The two ways `json.Unmarshal` fails: the text is not valid JSON, or a value does not fit
the Go type it is decoded into. -/
inductive UnmarshalError
  | invalidText
  | typeMismatch
  deriving DecidableEq, Repr

/-- Decoding one member value into `map[string]json.RawMessage`: `null` gives the nil map,
an object gives its fields (a repeated name keeps the later value), anything else is a
type mismatch. -/
def decodeMember : JSONMember → Except UnmarshalError (GoMap String)
  | .null => .ok []
  | .object fields => .ok (fields.foldl (fun m kv => goMapInsert m kv.1 kv.2) [])
  | .other => .error .typeMismatch

/-- Decoding the members of the top-level object one after the other into the map. -/
def decodeMembers : List (String × JSONMember) → GoMap (GoMap String) →
    Except UnmarshalError (GoMap (GoMap String))
  | [], m => .ok m
  | (k, v) :: rest, m => do
    let fields ← decodeMember v
    decodeMembers rest (goMapInsert m k fields)

/-- Decoding a valid JSON text into `map[string]map[string]json.RawMessage`; the result is
`error` exactly when `json.Unmarshal` returns a non-nil error. -/
def decodeDocument : JSONDocument → Except UnmarshalError (GoMap (GoMap String))
  | .null => .ok []
  | .object members => decodeMembers members []
  | .other => .error .typeMismatch

/-- What the provider takes from outside the three source files.
`parseJSON` is the syntax layer of `encoding/json` (`none`: not valid JSON).
`rangeOrder` is the order in which `for … := range adConfig` visits the entries of the map,
which Go leaves unspecified.  `extractTemplatesFromMap` is the function of that name in
package `providers`, whose definition is not among the sources; `Cfg` stands for
`integration.Config`. -/
structure Environment (Cfg : Type) where
  parseJSON : String → Option JSONDocument
  rangeOrder : GoMap (GoMap String) → GoMap (GoMap String)
  extractTemplatesFromMap : String → GoMap String → String → List Cfg × List String

/-- `json.Unmarshal([]byte(text), &adConfig)` with
`adConfig : map[string]map[string]json.RawMessage`. -/
def jsonUnmarshal {Cfg : Type} (env : Environment Cfg) (text : String) :
    Except UnmarshalError (GoMap (GoMap String)) :=
  match env.parseJSON text with
  | none => .error .invalidText
  | some doc => decodeDocument doc

/-- One line written by `log.Errorf("Cannot parse endpoint template for service %s/%s: %s",
…)`: the process GUID, the key, and the error. -/
structure LoggedError where
  ProcessGUID : String
  adName : String
  err : String
  deriving DecidableEq, Repr

/-- Result of `getConfigsFromDesiredLRP`: the returned slice, the returned error, and the
lines it logged. -/
structure ConfigsResult (Cfg : Type) where
  configs : List Cfg
  err : Option UnmarshalError
  logged : List LoggedError

/-- The loop `for k, v := range adVal { convertedADVal[k] = string(v) }`. -/
def convertADVal (adVal : GoMap String) : GoMap String :=
  adVal.foldl (fun m kv => goMapInsert m kv.1 kv.2) []

/-- The loop `for adName, adVal := range adConfig { … }` over the entries in visiting
order, starting from the accumulated `allConfigs` and log. -/
def rangeADConfig {Cfg : Type} (env : Environment Cfg) (desiredLRP : DesiredLRP) :
    GoMap (GoMap String) → List Cfg × List LoggedError → List Cfg × List LoggedError
  | [], acc => acc
  | (adName, adVal) :: rest, (allConfigs, logged) =>
    let id := desiredLRP.ProcessGUID ++ "/" ++ adName
    let convertedADVal := convertADVal adVal
    let (parsedConfigs, errs) := env.extractTemplatesFromMap id convertedADVal ""
    rangeADConfig env desiredLRP rest
      (allConfigs ++ parsedConfigs,
       logged ++ errs.map (fun e => ⟨desiredLRP.ProcessGUID, adName, e⟩))

def getConfigsFromDesiredLRP {Cfg : Type} (env : Environment Cfg) (desiredLRP : DesiredLRP) :
    ConfigsResult Cfg :=
  if desiredLRP.EnvAD = "" then
    { configs := [], err := none, logged := [] }
  else
    match jsonUnmarshal env desiredLRP.EnvAD with
    | .error err => { configs := [], err := some err, logged := [] }
    | .ok adConfig =>
      let (allConfigs, logged) := rangeADConfig env desiredLRP (env.rangeOrder adConfig) ([], [])
      { configs := allConfigs, err := none, logged := logged }

/-- The loop of `Collect` over the desired LRPs: the accumulated `allConfigs` and the
errors printed so far. -/
def collectLoop {Cfg : Type} (env : Environment Cfg) :
    List DesiredLRP → List Cfg × List UnmarshalError → List Cfg × List UnmarshalError
  | [], acc => acc
  | desiredLRP :: rest, (allConfigs, printed) =>
    let r := getConfigsFromDesiredLRP env desiredLRP
    collectLoop env rest (allConfigs ++ r.configs, printed ++ r.err.toList)

/-- Result of `Collect`: the returned slice, the returned error (always nil in the source),
and the errors it printed with `fmt.Println`.  The final `fmt.Printf` of the whole slice is
not recorded. -/
structure CollectResult (Cfg : Type) where
  configs : List Cfg
  err : Option UnmarshalError
  printed : List UnmarshalError

def Collect {Cfg : Type} (env : Environment Cfg) (bbsCache : BBSCache) : CollectResult Cfg :=
  let desiredLRPs := bbsCache.GetDesiredLRPs
  let (allConfigs, printed) := collectLoop env desiredLRPs ([], [])
  { configs := allConfigs, err := none, printed := printed }

end providers

/-! ## Example inputs -/

namespace cloudfoundry

/-- A record whose two run actions both set both variables, in a serial action. -/
def exampleSerial : BBSDesiredLRP :=
  { ProcessGuid := "0f4d6d2c-6b1e-4c1a-9d3e-7a5b8c9d0e1f-3b2a1c0d-aaaa-bbbb-cccc-1234567890ab",
    Action := .serial
      [ .run [⟨"AD_DATADOGHQ_COM", "x"⟩, ⟨"VCAP_SERVICES", "x"⟩],
        .run [⟨"AD_DATADOGHQ_COM", "y"⟩, ⟨"VCAP_SERVICES", "y"⟩] ] }

/-- A deep run action listed before a shallow one. -/
def exampleNested : Action :=
  .parallel [ .serial [ .run [⟨"AD_DATADOGHQ_COM", "deep"⟩] ],
              .run [⟨"AD_DATADOGHQ_COM", "shallow"⟩] ]

/-- An actual record that is long enough for the slice. -/
def exampleActual : BBSActualLRP :=
  { ProcessGuid := "0f4d6d2c-6b1e-4c1a-9d3e-7a5b8c9d0e1f-3b2a1c0d-aaaa-bbbb-cccc-1234567890ab",
    CellId := "cell-1" }

/-- An actual and a desired record as a refresh cycle publishes them. -/
def exampleCycle : List ActualLRP × List DesiredLRP :=
  ([⟨goBytes "app-1", "cell-1", "process-1"⟩], [⟨goBytes "app-1", "", "", "process-1"⟩])

end cloudfoundry

namespace providers

open cloudfoundry

/-- The payload with one well-formed key and one key whose value is a string. -/
def examplePayload : String :=
  "\x7b\"app1\": \x7b\"check_names\": \"[]\", \"init_configs\": \"[]\", \"instances\": \"[]\"\x7d, \"app2\": \"not-an-object\"\x7d"

/-- The JSON document that `examplePayload` spells. -/
def exampleDocument : JSONDocument :=
  .object [ ("app1", .object [ ("check_names", "\"[]\""), ("init_configs", "\"[]\""),
                               ("instances", "\"[]\"") ]),
            ("app2", .other) ]

/-- A payload with a single well-formed key. -/
def exampleSinglePayload : String :=
  "\x7b\"app1\": \x7b\"check_names\": [\"http_check\"], \"init_configs\": [\x7b\x7d], \"instances\": [\x7b\x7d]\x7d\x7d"

/-- The JSON document that `exampleSinglePayload` spells. -/
def exampleSingleDocument : JSONDocument :=
  .object [ ("app1", .object [ ("check_names", "[\"http_check\"]"), ("init_configs", "[\x7b\x7d]"),
                               ("instances", "[\x7b\x7d]") ]) ]

/-- An environment for the examples: the parser knows the two example payloads, the map is
visited in insertion order, and the extractor yields one template, named by the identifier
it is given, when the three fragments are present and one error otherwise. -/
def exampleEnvironment : Environment String :=
  { parseJSON := fun text =>
      if text = examplePayload then some exampleDocument
      else if text = exampleSinglePayload then some exampleSingleDocument
      else none
    rangeOrder := fun adConfig => adConfig
    extractTemplatesFromMap := fun id input _ =>
      if (goMapLookup input "check_names").isSome ∧ (goMapLookup input "init_configs").isSome
          ∧ (goMapLookup input "instances").isSome
      then ([id], []) else ([], ["missing fragment"]) }

/-- The desired LRP that carries `examplePayload`. -/
def exampleOwner : DesiredLRP :=
  { AppGUID := goBytes "appGUID", EnvAD := examplePayload, EnvVcapServices := "",
    ProcessGUID := "ownerID" }

/-- A desired LRP without auto-discovery payload. -/
def exampleSilent : DesiredLRP :=
  { AppGUID := goBytes "appGUID-0", EnvAD := "", EnvVcapServices := "", ProcessGUID := "process-0" }

/-- A desired LRP with a single-key payload. -/
def exampleSingle : DesiredLRP :=
  { AppGUID := goBytes "appGUID-1", EnvAD := exampleSinglePayload, EnvVcapServices := "",
    ProcessGUID := "process-1" }

end providers

/-! # Properties -/

namespace cloudfoundry

theorem Action.sizeList_append (xs ys : List Action) :
    Action.sizeList (xs ++ ys) = Action.sizeList xs + Action.sizeList ys := by
  induction xs with
  | nil => simp [Action.sizeList]
  | cons a xs ih => simp [Action.sizeList, ih, Nat.add_assoc]

/-! ### Traversal lemmas -/

theorem actionQueueLoop_cons (a : Action) (q : List Action)
    (acc : List (List EnvironmentVariable)) :
    actionQueueLoop (a :: q) acc = actionQueueLoop (q ++ a.children) (acc ++ a.recorded) := by
  cases a <;> simp [actionQueueLoop, Action.children, Action.recorded]

theorem Action.size_pos (a : Action) : 0 < a.size := by
  cases a <;> simp [Action.size]

theorem Action.sizeList_children (a : Action) : Action.sizeList a.children + 1 = a.size := by
  cases a <;> simp [Action.size, Action.children, Action.sizeList]

theorem Action.envsAtDepthList_append (xs ys : List Action) (d : Nat) :
    Action.envsAtDepthList (xs ++ ys) d
      = Action.envsAtDepthList xs d ++ Action.envsAtDepthList ys d := by
  induction xs with
  | nil => simp [Action.envsAtDepthList]
  | cons a xs ih => simp [Action.envsAtDepthList, ih]

theorem Action.heightList_append (xs ys : List Action) :
    Action.heightList (xs ++ ys) = max (Action.heightList xs) (Action.heightList ys) := by
  induction xs with
  | nil => simp [Action.heightList]
  | cons a xs ih => simp [Action.heightList, ih, Nat.max_assoc]

theorem Action.envsAtDepth_zero (a : Action) : a.envsAtDepth 0 = a.recorded := by
  cases a <;> simp [Action.envsAtDepth, Action.recorded]

theorem Action.envsAtDepth_succ (a : Action) (d : Nat) :
    a.envsAtDepth (d + 1) = Action.envsAtDepthList a.children d := by
  cases a <;> simp [Action.envsAtDepth, Action.children, Action.envsAtDepthList]

theorem Action.heightList_children (a : Action) :
    Action.heightList a.children + 1 = a.height := by
  cases a <;> simp [Action.height, Action.children, Action.heightList]

theorem Action.envsAtDepthList_nil_of_forall (q : List Action) (d : Nat)
    (h : ∀ a ∈ q, a.envsAtDepth d = []) : Action.envsAtDepthList q d = [] := by
  induction q with
  | nil => simp [Action.envsAtDepthList]
  | cons a q ih =>
    simp only [Action.envsAtDepthList]
    rw [h a (by simp), ih (fun b hb => h b (by simp [hb]))]
    rfl

theorem Action.height_le_of_mem (q : List Action) (a : Action) (h : a ∈ q) :
    a.height ≤ Action.heightList q := by
  induction q with
  | nil => simp at h
  | cons b q ih =>
    simp only [Action.heightList]
    rcases List.mem_cons.mp h with rfl | h
    · exact Nat.le_max_left _ _
    · exact Nat.le_trans (ih h) (Nat.le_max_right _ _)

theorem Action.envsAtDepth_of_height_le (d : Nat) :
    ∀ a : Action, a.height ≤ d → a.envsAtDepth d = [] := by
  induction d with
  | zero =>
    intro a h
    have := Action.heightList_children a
    omega
  | succ d ih =>
    intro a h
    rw [Action.envsAtDepth_succ]
    apply Action.envsAtDepthList_nil_of_forall
    intro b hb
    apply ih
    have h1 := Action.height_le_of_mem _ _ hb
    have h2 := Action.heightList_children a
    omega

theorem Action.envsAtDepthList_of_height_le (q : List Action) (d : Nat)
    (h : Action.heightList q ≤ d) : Action.envsAtDepthList q d = [] := by
  apply Action.envsAtDepthList_nil_of_forall
  intro a ha
  exact Action.envsAtDepth_of_height_le d a (Nat.le_trans (Action.height_le_of_mem _ _ ha) h)

/-- Shifting one of two interleaved sequences of lists by one position. -/
theorem flatMap_range_interleave {α : Type} (f g : Nat → List α) (n : Nat) :
    (List.range n).flatMap (fun d => f d ++ g d) ++ f n
      = f 0 ++ (List.range n).flatMap (fun d => g d ++ f (d + 1)) := by
  induction n with
  | zero => simp
  | succ n ih =>
    rw [List.range_succ, List.flatMap_append, List.flatMap_append]
    simp only [List.flatMap_cons, List.flatMap_nil, List.append_nil]
    rw [← List.append_assoc (f 0), ← ih]
    simp [List.append_assoc]

/-- Level order of a list of trees, cut after `n` levels. -/
def Action.levelOrderList (n : Nat) (q : List Action) : List (List EnvironmentVariable) :=
  (List.range n).flatMap (fun d => Action.envsAtDepthList q d)

theorem Action.levelOrderList_cons (n : Nat) (a : Action) (q : List Action)
    (h : a.height ≤ n) :
    Action.levelOrderList n (a :: q) = a.recorded ++ Action.levelOrderList n (q ++ a.children) := by
  have key := flatMap_range_interleave (fun d => a.envsAtDepth d)
    (fun d => Action.envsAtDepthList q d) n
  simp only [Action.envsAtDepth_of_height_le n a h, List.append_nil,
    Action.envsAtDepth_zero, Action.envsAtDepth_succ] at key
  simp only [Action.levelOrderList, Action.envsAtDepthList, Action.envsAtDepthList_append]
  exact key

/-- The queue loop started on any queue appends the level order of that queue. -/
theorem actionQueueLoop_eq_levelOrderList (k : Nat) :
    ∀ (q : List Action) (acc : List (List EnvironmentVariable)) (n : Nat),
      Action.sizeList q ≤ k → Action.heightList q ≤ n →
      actionQueueLoop q acc = acc ++ Action.levelOrderList n q := by
  induction k with
  | zero =>
    intro q acc n hk _
    cases q with
    | nil => simp [actionQueueLoop, Action.levelOrderList, Action.envsAtDepthList]
    | cons a q =>
      have := Action.size_pos a
      simp only [Action.sizeList] at hk
      omega
  | succ k ih =>
    intro q acc n hk hn
    cases q with
    | nil => simp [actionQueueLoop, Action.levelOrderList, Action.envsAtDepthList]
    | cons a q =>
      simp only [Action.sizeList] at hk
      simp only [Action.heightList] at hn
      have hc := Action.sizeList_children a
      have hh := Action.heightList_children a
      have ha : a.height ≤ n := Nat.le_trans (Nat.le_max_left _ _) hn
      have hq : Action.heightList q ≤ n := Nat.le_trans (Nat.le_max_right _ _) hn
      rw [actionQueueLoop_cons, Action.levelOrderList_cons n a q ha,
        ih (q ++ a.children) (acc ++ a.recorded) n
          (by rw [Action.sizeList_append]; omega)
          (by rw [Action.heightList_append]; exact Nat.max_le.mpr ⟨hq, by omega⟩)]
      simp [List.append_assoc]

theorem actionQueueLoop_root (a : Action) : actionQueueLoop [a] [] = a.levelOrder := by
  rw [actionQueueLoop_eq_levelOrderList (Action.sizeList [a]) [a] [] a.height (Nat.le_refl _)
    (by simp [Action.heightList])]
  simp [Action.levelOrderList, Action.levelOrder, Action.envsAtDepthList]


/-! ### Conversion lemmas -/

theorem utf8ByteSize_go_ge (cs : List Char) : cs.length ≤ String.utf8ByteSize.go cs := by
  induction cs with
  | nil => simp [String.utf8ByteSize.go]
  | cons c cs ih =>
    simp only [String.utf8ByteSize.go, List.length_cons]
    have := Char.utf8Size_pos c
    omega

/-- A string has at least as many bytes as characters. -/
theorem length_le_utf8ByteSize (s : String) : s.length ≤ s.utf8ByteSize := by
  cases s with
  | mk cs => exact utf8ByteSize_go_ge cs

/-- The byte list of a string has the length Go's `len` reports. -/
theorem goBytes_length (s : String) : (goBytes s).length = s.utf8ByteSize := by
  cases s with
  | mk cs =>
    show (cs.flatMap String.utf8EncodeChar).length = String.utf8ByteSize.go cs
    induction cs with
    | nil => rfl
    | cons c cs ih =>
      simp only [List.flatMap_cons, List.length_append, String.length_utf8EncodeChar,
        String.utf8ByteSize.go, ih]
      omega

/-- On an identifier of at least 36 bytes the slice has exactly 36 bytes. -/
theorem appGUID_length (s : String) (h : 36 ≤ s.utf8ByteSize) :
    ((goBytes s).take 36).length = 36 := by
  rw [List.length_take, goBytes_length]
  omega

theorem appGUIDFromProcessGUID_ok (s : String) (h : 36 ≤ s.utf8ByteSize) :
    appGUIDFromProcessGUID s = .ok ((goBytes s).take 36) := by
  simp [appGUIDFromProcessGUID, Nat.not_lt.mpr h]

theorem appGUIDFromProcessGUID_short (s : String) (h : s.utf8ByteSize < 36) :
    appGUIDFromProcessGUID s = .error .sliceBoundsOutOfRange := by
  simp [appGUIDFromProcessGUID, h]

theorem DesiredLRPFromBBSModel_ok (r : BBSDesiredLRP) (h : 36 ≤ r.ProcessGuid.utf8ByteSize) :
    DesiredLRPFromBBSModel r = .ok
      { AppGUID := (goBytes r.ProcessGuid).take 36,
        EnvAD := (scanActionEnvs (actionQueueLoop [r.Action] []) ("", "")).1,
        EnvVcapServices := (scanActionEnvs (actionQueueLoop [r.Action] []) ("", "")).2,
        ProcessGUID := r.ProcessGuid } := by
  simp only [DesiredLRPFromBBSModel, appGUIDFromProcessGUID_ok _ h]
  rfl

theorem DesiredLRPFromBBSModel_fields (r : BBSDesiredLRP)
    (h : 36 ≤ r.ProcessGuid.utf8ByteSize) :
    ∃ d, DesiredLRPFromBBSModel r = .ok d ∧
      d.EnvAD = (scanActionEnvs (actionQueueLoop [r.Action] []) ("", "")).1 ∧
      d.EnvVcapServices = (scanActionEnvs (actionQueueLoop [r.Action] []) ("", "")).2 ∧
      d.ProcessGUID = r.ProcessGuid :=
  ⟨_, DesiredLRPFromBBSModel_ok r h, rfl, rfl, rfl⟩

theorem DesiredLRPFromBBSModel_short (r : BBSDesiredLRP) (h : r.ProcessGuid.utf8ByteSize < 36) :
    DesiredLRPFromBBSModel r = .error .sliceBoundsOutOfRange := by
  simp only [DesiredLRPFromBBSModel, appGUIDFromProcessGUID_short _ h]
  rfl

theorem ActualLRPFromBBSModel_ok (r : BBSActualLRP) (h : 36 ≤ r.ProcessGuid.utf8ByteSize) :
    ActualLRPFromBBSModel r = .ok
      { AppGUID := (goBytes r.ProcessGuid).take 36, CellID := r.CellId,
        ProcessGUID := r.ProcessGuid } := by
  simp only [ActualLRPFromBBSModel, appGUIDFromProcessGUID_ok _ h]
  rfl

theorem ActualLRPFromBBSModel_short (r : BBSActualLRP) (h : r.ProcessGuid.utf8ByteSize < 36) :
    ActualLRPFromBBSModel r = .error .sliceBoundsOutOfRange := by
  simp only [ActualLRPFromBBSModel, appGUIDFromProcessGUID_short _ h]
  rfl

/-! ### Scan lemmas -/

theorem names_ne : ENV_VCAP_SERVICES_VARIABLE_NAME ≠ ENV_AD_VARIABLE_NAME := by decide

theorem lastValue_append (name : String) (xs ys : List EnvironmentVariable) :
    lastValue name (xs ++ ys) = (lastValue name ys).or (lastValue name xs) := by
  induction xs with
  | nil => simp [lastValue]
  | cons ev xs ih =>
    have h : lastValue name (ev :: (xs ++ ys))
        = (lastValue name (xs ++ ys)).or (if ev.Name = name then some ev.Value else none) := rfl
    rw [List.cons_append, h, ih]
    simp only [lastValue]
    cases lastValue name ys <;> simp

theorem scanEnvVars_fst (l : List EnvironmentVariable) (st : String × String) :
    (scanEnvVars l st).1 = (lastValue ENV_AD_VARIABLE_NAME l).getD st.1 := by
  induction l generalizing st with
  | nil => simp [scanEnvVars, lastValue]
  | cons ev rest ih =>
    obtain ⟨ad, vs⟩ := st
    simp only [scanEnvVars, lastValue]
    by_cases h1 : ev.Name = ENV_AD_VARIABLE_NAME
    · simp only [h1, if_true, ih]
      cases lastValue ENV_AD_VARIABLE_NAME rest <;> rfl
    · simp only [h1, if_false]
      by_cases h2 : ev.Name = ENV_VCAP_SERVICES_VARIABLE_NAME
      · simp only [h2, if_true, ih]
        cases lastValue ENV_AD_VARIABLE_NAME rest <;> rfl
      · simp only [h2, if_false, ih]
        cases lastValue ENV_AD_VARIABLE_NAME rest <;> rfl

theorem scanEnvVars_snd (l : List EnvironmentVariable) (st : String × String) :
    (scanEnvVars l st).2 = (lastValue ENV_VCAP_SERVICES_VARIABLE_NAME l).getD st.2 := by
  induction l generalizing st with
  | nil => simp [scanEnvVars, lastValue]
  | cons ev rest ih =>
    obtain ⟨ad, vs⟩ := st
    simp only [scanEnvVars, lastValue]
    by_cases h1 : ev.Name = ENV_AD_VARIABLE_NAME
    · have h2 : ev.Name ≠ ENV_VCAP_SERVICES_VARIABLE_NAME := by
        rw [h1]; exact fun h => names_ne h.symm
      simp only [h1, if_true, ih]
      rw [← h1]
      simp only [h2, if_false]
      cases lastValue ENV_VCAP_SERVICES_VARIABLE_NAME rest <;> rfl
    · simp only [h1, if_false]
      by_cases h2 : ev.Name = ENV_VCAP_SERVICES_VARIABLE_NAME
      · simp only [h2, if_true, ih]
        cases lastValue ENV_VCAP_SERVICES_VARIABLE_NAME rest <;> rfl
      · simp only [h2, if_false, ih]
        cases lastValue ENV_VCAP_SERVICES_VARIABLE_NAME rest <;> rfl

theorem scanEnvVars_eq (l : List EnvironmentVariable) (st : String × String) :
    scanEnvVars l st = ((lastValue ENV_AD_VARIABLE_NAME l).getD st.1,
                        (lastValue ENV_VCAP_SERVICES_VARIABLE_NAME l).getD st.2) :=
  Prod.ext (scanEnvVars_fst l st) (scanEnvVars_snd l st)

/-- The outer loop, started with an empty `envAD`, returns the last values found in the
lists it scans. -/
theorem scanActionEnvs_eq (envs : List (List EnvironmentVariable)) (vs : String) :
    scanActionEnvs envs ("", vs)
      = ((lastValue ENV_AD_VARIABLE_NAME (scannedLists envs).flatten).getD "",
         (lastValue ENV_VCAP_SERVICES_VARIABLE_NAME (scannedLists envs).flatten).getD vs) := by
  induction envs generalizing vs with
  | nil => simp [scanActionEnvs, scannedLists, lastValue]
  | cons l rest ih =>
    simp only [scanActionEnvs, scannedLists, scanEnvVars_eq]
    by_cases h : (lastValue ENV_AD_VARIABLE_NAME l).getD "" = ""
    · simp only [h, ne_eq, not_true_eq_false, if_false, ih, List.flatten_cons, lastValue_append]
      apply Prod.ext
      · cases h1 : lastValue ENV_AD_VARIABLE_NAME (scannedLists rest).flatten with
        | some v => simp
        | none => simp [h]
      · cases h1 : lastValue ENV_VCAP_SERVICES_VARIABLE_NAME (scannedLists rest).flatten with
        | some v => simp
        | none => simp
    · simp only [h, ne_eq, not_false_eq_true, if_true, List.flatten_cons, List.flatten_nil,
        List.append_nil]

theorem lastValue_eq_none_of_countP (name : String) (l : List EnvironmentVariable)
    (h : l.countP (fun ev => ev.Name = name) = 0) : lastValue name l = none := by
  induction l with
  | nil => rfl
  | cons ev rest ih =>
    rw [List.countP_cons] at h
    by_cases hn : ev.Name = name
    · simp [hn] at h
    · simp only [lastValue, hn, if_false, ih (by omega)]
      rfl

/-- In a list that names the variable at most once, the last value and the first value
are the same thing. -/
theorem lastValue_eq_valueIn (name : String) (l : List EnvironmentVariable)
    (h : l.countP (fun ev => ev.Name = name) ≤ 1) : lastValue name l = valueIn name l := by
  induction l with
  | nil => rfl
  | cons ev rest ih =>
    rw [List.countP_cons] at h
    by_cases hn : ev.Name = name
    · have h0 : rest.countP (fun ev => ev.Name = name) = 0 := by
        simp [hn] at h
        simpa using h
      simp [lastValue, valueIn, hn, lastValue_eq_none_of_countP name rest h0]
    · have h1 : rest.countP (fun ev => ev.Name = name) ≤ 1 := by omega
      simp only [lastValue, hn, if_false, ih h1, valueIn]
      simp [List.find?_cons, hn]

theorem scanActionEnvs_fst_eq_first (envs : List (List EnvironmentVariable)) (vs : String)
    (h : ∀ l ∈ envs, l.countP (fun ev => ev.Name = ENV_AD_VARIABLE_NAME) ≤ 1) :
    (scanActionEnvs envs ("", vs)).1 = firstNonEmptyValue ENV_AD_VARIABLE_NAME envs := by
  induction envs generalizing vs with
  | nil => rfl
  | cons l rest ih =>
    have hl := lastValue_eq_valueIn _ l (h l (by simp))
    have hrest := fun vs => ih vs (fun l1 h1 => h l1 (by simp [h1]))
    simp only [scanActionEnvs, scanEnvVars_eq, firstNonEmptyValue, hl]
    cases hv : valueIn ENV_AD_VARIABLE_NAME l with
    | none => simp [hrest]
    | some v =>
      by_cases hne : v = ""
      · simp [hne, hrest]
      · simp [hne]

theorem firstNonEmptyValue_split (name : String)
    (before : List (List EnvironmentVariable)) (envVars : List EnvironmentVariable)
    (rest : List (List EnvironmentVariable)) (v : String)
    (hb : ∀ l ∈ before, (valueIn name l).getD "" = "")
    (hv : valueIn name envVars = some v) (hne : v ≠ "") :
    firstNonEmptyValue name (before ++ envVars :: rest) = v := by
  induction before with
  | nil => simp [firstNonEmptyValue, hv, hne]
  | cons l before ih =>
    have h1 := hb l (by simp)
    have h2 := ih (fun l1 hl1 => hb l1 (by simp [hl1]))
    simp only [List.cons_append, firstNonEmptyValue]
    cases hl : valueIn name l with
    | none => simpa using h2
    | some w =>
      rw [hl] at h1
      simp only [Option.getD_some] at h1
      simp [h1, h2]

/-! ### Claims about `types.go` -/

/-- C1. First match wins for the auto-discovery variable: for a record whose process
identifier has at least 36 characters and whose recorded run environments each name
`AD_DATADOGHQ_COM` at most once, `DesiredLRPFromBBSModel` returns a record whose `EnvAD`
is the value of the variable in the first recorded environment list where that value is
non-empty (the empty string when there is none); whatever follows that list has no
influence. -/
theorem first_match_wins_EnvAD (r : BBSDesiredLRP) (h36 : 36 ≤ r.ProcessGuid.length)
    (honce : ∀ envVars ∈ actionQueueLoop [r.Action] [],
      envVars.countP (fun ev => ev.Name = ENV_AD_VARIABLE_NAME) ≤ 1) :
    ∃ d, DesiredLRPFromBBSModel r = .ok d ∧
      d.EnvAD = firstNonEmptyValue ENV_AD_VARIABLE_NAME (actionQueueLoop [r.Action] []) ∧
      ∀ before envVars later v,
        actionQueueLoop [r.Action] [] = before ++ envVars :: later →
        (∀ l ∈ before, (valueIn ENV_AD_VARIABLE_NAME l).getD "" = "") →
        valueIn ENV_AD_VARIABLE_NAME envVars = some v → v ≠ "" → d.EnvAD = v := by
  have hbytes : 36 ≤ r.ProcessGuid.utf8ByteSize :=
    Nat.le_trans h36 (length_le_utf8ByteSize _)
  refine ⟨_, DesiredLRPFromBBSModel_ok r hbytes, ?_, ?_⟩
  · exact scanActionEnvs_fst_eq_first _ _ honce
  · intro before envVars later v hsplit hb hv hne
    show (scanActionEnvs (actionQueueLoop [r.Action] []) ("", "")).1 = v
    rw [scanActionEnvs_fst_eq_first _ _ honce, hsplit]
    exact firstNonEmptyValue_split _ before envVars later v hb hv hne

theorem first_match_wins_EnvAD_witness :
    ∃ d, DesiredLRPFromBBSModel exampleSerial = .ok d ∧ d.EnvAD = "x" := by
  obtain ⟨d, hd, hAD, _⟩ := first_match_wins_EnvAD exampleSerial (by decide)
    (by simp [exampleSerial, actionQueueLoop, ENV_AD_VARIABLE_NAME])
  refine ⟨d, hd, ?_⟩
  rw [hAD]
  simp [exampleSerial, actionQueueLoop, firstNonEmptyValue, valueIn, ENV_AD_VARIABLE_NAME]

/-- C2, as stated, fails: on the serial record whose two run actions both set both
variables, `EnvAD` is "x" and `EnvVcapServices` is "x" as well, whereas the last non-empty
value of `VCAP_SERVICES` over all recorded lists is "y". -/
theorem last_match_VcapServices_counterexample :
    ∃ d, DesiredLRPFromBBSModel exampleSerial = .ok d ∧ d.EnvAD = "x" ∧
      d.EnvVcapServices = "x" ∧
      lastNonEmptyValue ENV_VCAP_SERVICES_VARIABLE_NAME
        (actionQueueLoop [exampleSerial.Action] []) = "y" ∧
      d.EnvVcapServices ≠ lastNonEmptyValue ENV_VCAP_SERVICES_VARIABLE_NAME
        (actionQueueLoop [exampleSerial.Action] []) := by
  refine ⟨_, DesiredLRPFromBBSModel_ok exampleSerial (by decide), ?_, ?_, ?_, ?_⟩ <;>
  simp [exampleSerial, actionQueueLoop, scanActionEnvs, scanEnvVars, lastNonEmptyValue,
    ENV_AD_VARIABLE_NAME, ENV_VCAP_SERVICES_VARIABLE_NAME]

/-- C2, amended: for a record whose process identifier has at least 36 characters,
`EnvVcapServices` is the value, empty or not, of the last `VCAP_SERVICES` entry among
the recorded lists that are scanned, namely those up to and including the first list that
leaves the auto-discovery value non-empty; it is empty when no scanned list has such an
entry. -/
theorem EnvVcapServices_last_scanned (r : BBSDesiredLRP) (h36 : 36 ≤ r.ProcessGuid.length) :
    ∃ d, DesiredLRPFromBBSModel r = .ok d ∧
      d.EnvVcapServices =
        (lastValue ENV_VCAP_SERVICES_VARIABLE_NAME
          (scannedLists (actionQueueLoop [r.Action] [])).flatten).getD "" := by
  have hbytes : 36 ≤ r.ProcessGuid.utf8ByteSize :=
    Nat.le_trans h36 (length_le_utf8ByteSize _)
  refine ⟨_, DesiredLRPFromBBSModel_ok r hbytes, ?_⟩
  show (scanActionEnvs (actionQueueLoop [r.Action] []) ("", "")).2 = _
  rw [scanActionEnvs_eq]

theorem EnvVcapServices_last_scanned_witness :
    ∃ d, DesiredLRPFromBBSModel exampleSerial = .ok d ∧ d.EnvVcapServices = "x" := by
  obtain ⟨d, hd, hVS⟩ := EnvVcapServices_last_scanned exampleSerial (by decide)
  refine ⟨d, hd, ?_⟩
  rw [hVS]
  simp [exampleSerial, actionQueueLoop, scannedLists, lastValue,
    ENV_AD_VARIABLE_NAME, ENV_VCAP_SERVICES_VARIABLE_NAME]

/-- C5, as stated, fails: for the five-byte identifier "short" the derivation ends in the
slice-bounds run-time fault, which is not the identifier-format fault; and an identifier of
twenty two-byte characters (fewer than 36 characters, 40 bytes) raises no fault at all. -/
theorem short_identifier_counterexample :
    appGUIDFromProcessGUID "short" = .error .sliceBoundsOutOfRange ∧
    appGUIDFromProcessGUID "short" ≠ .error .identifierFormat ∧
    "éééééééééééééééééééé".length < 36 ∧
    ∃ g, appGUIDFromProcessGUID "éééééééééééééééééééé" = .ok g := by
  have h := appGUIDFromProcessGUID_short "short" (by decide)
  refine ⟨h, ?_, by decide, _, appGUIDFromProcessGUID_ok _ (by decide)⟩
  rw [h]
  intro hcontra
  cases hcontra

/-- C5, amended: for every process identifier shorter than 36 bytes the derivation of the
application identifier ends in Go's slice-bounds run-time fault, in
`appGUIDFromProcessGUID` and so in both conversions; no identifier, truncated or
otherwise, is returned. -/
theorem short_identifier_faults (processGUID : String) (h : processGUID.utf8ByteSize < 36) :
    appGUIDFromProcessGUID processGUID = .error .sliceBoundsOutOfRange ∧
    (∀ cell, ActualLRPFromBBSModel ⟨processGUID, cell⟩ = .error .sliceBoundsOutOfRange) ∧
    (∀ action, DesiredLRPFromBBSModel ⟨processGUID, action⟩ = .error .sliceBoundsOutOfRange) :=
  ⟨appGUIDFromProcessGUID_short _ h,
   fun _ => ActualLRPFromBBSModel_short _ h,
   fun _ => DesiredLRPFromBBSModel_short _ h⟩

theorem short_identifier_faults_witness :
    "short".utf8ByteSize < 36 ∧
    appGUIDFromProcessGUID "short" = .error .sliceBoundsOutOfRange ∧
    ActualLRPFromBBSModel ⟨"short", "cell-1"⟩ = .error .sliceBoundsOutOfRange ∧
    DesiredLRPFromBBSModel ⟨"short", .nil⟩ = .error .sliceBoundsOutOfRange :=
  ⟨by decide, (short_identifier_faults "short" (by decide)).1,
   (short_identifier_faults "short" (by decide)).2.1 "cell-1",
   (short_identifier_faults "short" (by decide)).2.2 .nil⟩

/-- C10. Breadth-first order: the queue loop is a total function, and started on the root
of any action tree it records exactly the run environments in level order (depth by depth,
left to right within a depth, no run action lying deeper than the levels listed); a nil
node, a download action and an upload action are removed from the queue without recording
anything and without adding anything to the queue. -/
theorem queue_loop_level_order (a : Action) :
    actionQueueLoop [a] [] = a.levelOrder ∧
    a.levelOrder = (List.range a.height).flatMap (fun d => a.envsAtDepth d) ∧
    (∀ d, a.height ≤ d → a.envsAtDepth d = []) ∧
    (∀ q acc, actionQueueLoop (.nil :: q) acc = actionQueueLoop q acc) ∧
    (∀ q acc, actionQueueLoop (.download :: q) acc = actionQueueLoop q acc) ∧
    (∀ q acc, actionQueueLoop (.upload :: q) acc = actionQueueLoop q acc) := by
  refine ⟨actionQueueLoop_root a, rfl,
    fun d hd => Action.envsAtDepth_of_height_le d a hd, ?_, ?_, ?_⟩ <;>
  · intro q acc
    rw [actionQueueLoop]

theorem queue_loop_level_order_witness :
    actionQueueLoop [exampleNested] []
      = [[⟨"AD_DATADOGHQ_COM", "shallow"⟩], [⟨"AD_DATADOGHQ_COM", "deep"⟩]] ∧
    ∃ d, DesiredLRPFromBBSModel
        ⟨"0f4d6d2c-6b1e-4c1a-9d3e-7a5b8c9d0e1f", exampleNested⟩ = .ok d ∧
      d.EnvAD = "shallow" := by
  have h := (queue_loop_level_order exampleNested).1
  have hl : exampleNested.levelOrder
      = [[⟨"AD_DATADOGHQ_COM", "shallow"⟩], [⟨"AD_DATADOGHQ_COM", "deep"⟩]] := by
    simp [Action.levelOrder, exampleNested, Action.height, Action.heightList,
      Action.envsAtDepth, Action.envsAtDepthList, List.range_succ]
  refine ⟨h.trans hl, _, DesiredLRPFromBBSModel_ok _ (by decide), ?_⟩
  show (scanActionEnvs (actionQueueLoop [exampleNested] []) ("", "")).1 = "shallow"
  rw [h, hl]
  simp [scanActionEnvs, scanEnvVars, ENV_AD_VARIABLE_NAME]

/-! ### Claims about `bbscache.go` -/

theorem convertAll_ok {α β : Type} (convert : α → Except Fault β) (l : List α)
    (h : ∀ x ∈ l, ∃ y, convert x = .ok y) :
    ∃ ys, convertAll convert l = .ok ys ∧
      List.Forall₂ (fun x y => convert x = .ok y) l ys := by
  induction l with
  | nil => exact ⟨[], rfl, List.Forall₂.nil⟩
  | cons x xs ih =>
    obtain ⟨y, hy⟩ := h x (by simp)
    obtain ⟨ys, hys, hall⟩ := ih (fun z hz => h z (by simp [hz]))
    refine ⟨y :: ys, ?_, List.Forall₂.cons hy hall⟩
    simp only [convertAll, hy, hys]
    rfl

/-- C3, as stated, fails: when a fetched record has a process identifier shorter than 36
bytes the cycle ends in the slice-bounds fault instead of publishing the conversions, also
when only the other remote call has failed. -/
theorem refresh_cycle_counterexample :
    BBSCache.readData GlobalState.initial.globalBBSCache
        (.ok [⟨"short", "cell-1"⟩]) (.ok []) = .error .sliceBoundsOutOfRange ∧
    BBSCache.readData GlobalState.initial.globalBBSCache
        (.error "connection refused") (.ok [⟨"short", .nil⟩])
      = .error .sliceBoundsOutOfRange := by
  have hA : ActualLRPFromBBSModel ⟨"short", "cell-1"⟩ = .error .sliceBoundsOutOfRange :=
    ActualLRPFromBBSModel_short _ (by decide)
  have hD : DesiredLRPFromBBSModel ⟨"short", .nil⟩ = .error .sliceBoundsOutOfRange :=
    DesiredLRPFromBBSModel_short _ (by decide)
  constructor
  · simp only [BBSCache.readData, BBSCache.readActualLRPs, convertAll, hA]
    rfl
  · simp only [BBSCache.readData, BBSCache.readActualLRPs, BBSCache.readDesiredLRPs,
      convertAll, hD]
    rfl

/-- C3, amended: one refresh cycle is all-or-nothing provided every record of a
successfully fetched list has a process identifier of at least 36 bytes.  Then, if either
remote call fails, the cache is exactly what it was before the cycle; if both succeed, the
two halves become the element-wise conversions of the two fetched lists, in the same order
and of the same length, and nothing else in the cache changes. -/
theorem refresh_cycle_all_or_nothing (bc : BBSCache)
    (responseActual : Except String (List BBSActualLRP))
    (responseDesired : Except String (List BBSDesiredLRP))
    (hA : ∀ l, responseActual = .ok l → ∀ r ∈ l, 36 ≤ r.ProcessGuid.utf8ByteSize)
    (hD : ∀ l, responseDesired = .ok l → ∀ r ∈ l, 36 ≤ r.ProcessGuid.utf8ByteSize) :
    (((∃ e, responseActual = .error e) ∨ (∃ e, responseDesired = .error e)) →
      bc.readData responseActual responseDesired = .ok bc) ∧
    (∀ la ld, responseActual = .ok la → responseDesired = .ok ld →
      ∃ bc1, bc.readData responseActual responseDesired = .ok bc1 ∧
        List.Forall₂ (fun raw c => ActualLRPFromBBSModel raw = .ok c) la bc1.actualLRPs ∧
        List.Forall₂ (fun raw c => DesiredLRPFromBBSModel raw = .ok c) ld bc1.desiredLRPs ∧
        bc1.actualLRPs.length = la.length ∧ bc1.desiredLRPs.length = ld.length ∧
        bc1 = bc.publish bc1.actualLRPs bc1.desiredLRPs) := by
  have hAok : ∀ la, responseActual = .ok la → ∃ ys,
      convertAll ActualLRPFromBBSModel la = .ok ys ∧
      List.Forall₂ (fun raw c => ActualLRPFromBBSModel raw = .ok c) la ys := fun la h =>
    convertAll_ok _ la (fun r hr => ⟨_, ActualLRPFromBBSModel_ok r (hA la h r hr)⟩)
  have hDok : ∀ ld, responseDesired = .ok ld → ∃ ys,
      convertAll DesiredLRPFromBBSModel ld = .ok ys ∧
      List.Forall₂ (fun raw c => DesiredLRPFromBBSModel raw = .ok c) ld ys := fun ld h =>
    convertAll_ok _ ld (fun r hr => ⟨_, DesiredLRPFromBBSModel_ok r (hD ld h r hr)⟩)
  constructor
  · intro hfail
    cases responseActual with
    | error ea =>
      cases responseDesired with
      | error ed => rfl
      | ok ld =>
        obtain ⟨ys, hys, _⟩ := hDok ld rfl
        simp only [BBSCache.readData, BBSCache.readActualLRPs, BBSCache.readDesiredLRPs, hys]
        rfl
    | ok la =>
      obtain ⟨xs, hxs, _⟩ := hAok la rfl
      cases responseDesired with
      | error ed =>
        simp only [BBSCache.readData, BBSCache.readActualLRPs, BBSCache.readDesiredLRPs, hxs]
        rfl
      | ok ld =>
        rcases hfail with ⟨e, he⟩ | ⟨e, he⟩ <;> cases he
  · intro la ld hla hld
    subst hla
    subst hld
    obtain ⟨xs, hxs, hxall⟩ := hAok la rfl
    obtain ⟨ys, hys, hyall⟩ := hDok ld rfl
    refine ⟨bc.publish xs ys, ?_, hxall, hyall, hxall.length_eq.symm, hyall.length_eq.symm, rfl⟩
    simp only [BBSCache.readData, BBSCache.readActualLRPs, BBSCache.readDesiredLRPs, hxs, hys]
    rfl

theorem refresh_cycle_all_or_nothing_witness :
    BBSCache.readData GlobalState.initial.globalBBSCache
        (.error "connection refused") (.ok [exampleSerial])
      = .ok GlobalState.initial.globalBBSCache ∧
    ∃ bc1, BBSCache.readData GlobalState.initial.globalBBSCache
        (.ok [exampleActual]) (.ok [exampleSerial]) = .ok bc1 ∧
      bc1.actualLRPs.length = 1 ∧ bc1.desiredLRPs.length = 1 := by
  have hA : ∀ l, (Except.ok [exampleActual] : Except String (List BBSActualLRP)) = .ok l →
      ∀ r ∈ l, 36 ≤ r.ProcessGuid.utf8ByteSize := by
    intro l hl r hr
    cases hl
    simp only [List.mem_singleton] at hr
    subst hr
    decide
  have hD : ∀ l, (Except.ok [exampleSerial] : Except String (List BBSDesiredLRP)) = .ok l →
      ∀ r ∈ l, 36 ≤ r.ProcessGuid.utf8ByteSize := by
    intro l hl r hr
    cases hl
    simp only [List.mem_singleton] at hr
    subst hr
    decide
  constructor
  · exact (refresh_cycle_all_or_nothing GlobalState.initial.globalBBSCache
      (.error "connection refused") (.ok [exampleSerial])
      (fun l hl => by cases hl) hD).1 (Or.inl ⟨_, rfl⟩)
  · obtain ⟨bc1, h1, _, _, h4, h5, _⟩ :=
      (refresh_cycle_all_or_nothing GlobalState.initial.globalBBSCache
        (.ok [exampleActual]) (.ok [exampleSerial]) hA hD).2 _ _ rfl rfl
    exact ⟨bc1, h1, h4, h5⟩

theorem BBSCache.afterCycles_append (bc : BBSCache)
    (xs ys : List (List ActualLRP × List DesiredLRP)) :
    bc.afterCycles (xs ++ ys) = (bc.afterCycles xs).afterCycles ys := by
  induction xs generalizing bc with
  | nil => rfl
  | cons c xs ih => exact ih (bc.publish c.1 c.2)

/-- C4, as stated, fails: a reader that calls `GetActualLRPs` before the first publishing
cycle and `GetDesiredLRPs` after it holds the empty initial actual half together with the
desired half of cycle 1; that pair is the snapshot of no cycle. -/
theorem torn_read_counterexample :
    BBSCache.readerObserves GlobalState.initial.globalBBSCache [] [exampleCycle]
      = ([], exampleCycle.2) ∧
    ¬ ∃ n, BBSCache.readerObserves GlobalState.initial.globalBBSCache [] [exampleCycle]
      = BBSCache.snapshotAfter GlobalState.initial.globalBBSCache ([] ++ [exampleCycle]) n := by
  refine ⟨rfl, ?_⟩
  rintro ⟨n, hn⟩
  cases n with
  | zero =>
    have h2 := congrArg Prod.snd hn
    simp [BBSCache.readerObserves, BBSCache.snapshotAfter, BBSCache.afterCycles,
      BBSCache.publish, BBSCache.GetDesiredLRPs, GlobalState.initial, exampleCycle] at h2
  | succ n =>
    have h1 := congrArg Prod.fst hn
    simp [BBSCache.readerObserves, BBSCache.snapshotAfter, BBSCache.afterCycles,
      BBSCache.publish, BBSCache.GetActualLRPs, GlobalState.initial, exampleCycle] at h1

/-- C4, amended: a publishing cycle replaces both halves in one step, and each accessor
returns the half of the latest published snapshot.  A reader that calls `GetActualLRPs`
after `before` and `GetDesiredLRPs` after the further cycles `between` holds the actual
half of cycle `before.length` and the desired half of the later cycle
`before.length + between.length`; when no cycle publishes between the two calls, both
halves are those of one and the same cycle. -/
theorem reader_halves (bc : BBSCache) (before between : List (List ActualLRP × List DesiredLRP)) :
    (∀ actualLRPs desiredLRPs,
      (bc.publish actualLRPs desiredLRPs).GetActualLRPs = actualLRPs ∧
      (bc.publish actualLRPs desiredLRPs).GetDesiredLRPs = desiredLRPs) ∧
    (bc.readerObserves before between).1
      = (bc.snapshotAfter (before ++ between) before.length).1 ∧
    (bc.readerObserves before between).2
      = (bc.snapshotAfter (before ++ between) (before.length + between.length)).2 ∧
    (between = [] →
      bc.readerObserves before between
        = bc.snapshotAfter (before ++ between) before.length) := by
  refine ⟨fun _ _ => ⟨rfl, rfl⟩, ?_, ?_, ?_⟩
  · simp [BBSCache.readerObserves, BBSCache.snapshotAfter, BBSCache.GetActualLRPs]
  · have h : (before ++ between).take (before.length + between.length) = before ++ between := by
      rw [← List.length_append]
      exact List.take_length _
    simp only [BBSCache.readerObserves, BBSCache.snapshotAfter, BBSCache.GetDesiredLRPs, h]
  · intro hb
    subst hb
    simp [BBSCache.readerObserves, BBSCache.snapshotAfter, BBSCache.GetActualLRPs,
      BBSCache.GetDesiredLRPs]

theorem reader_halves_witness :
    BBSCache.readerObserves GlobalState.initial.globalBBSCache [exampleCycle] []
      = BBSCache.snapshotAfter GlobalState.initial.globalBBSCache ([exampleCycle] ++ []) 1 ∧
    BBSCache.readerObserves GlobalState.initial.globalBBSCache [exampleCycle] []
      = exampleCycle :=
  ⟨(reader_halves GlobalState.initial.globalBBSCache [exampleCycle] []).2.2.2 rfl, rfl⟩

/-- After a configure call that succeeded, every further call returns the same handle and
leaves the process-wide state, and with it the client and the number of refresh tasks,
as it is. -/
theorem configure_idempotent_after_success
    (ctor1 ctor2 : ClientConfig → Except String Client) (conf1 conf2 : ConfigurationProviders)
    (g : GlobalState) (h : (ConfigureGlobalBBSCache ctor1 conf1 g).1 = .ok .globalBBSCache) :
    ConfigureGlobalBBSCache ctor2 conf2 (ConfigureGlobalBBSCache ctor1 conf1 g).2
      = (.ok .globalBBSCache, (ConfigureGlobalBBSCache ctor1 conf1 g).2) := by
  unfold ConfigureGlobalBBSCache at h ⊢
  by_cases hc : g.globalBBSCache.configured = true
  · simp [hc]
  · simp only [hc, Bool.false_eq_true, if_false] at h ⊢
    cases hr : ctor1 _ with
    | error e => simp [hr] at h
    | ok c => simp [hr]

end cloudfoundry

/-! ### Claims about `providers/cloudfoundry.go` -/

namespace providers

open cloudfoundry

theorem decodeMembers_other (members : List (String × JSONMember))
    (h : ∃ kv ∈ members, kv.2 = .other) (m : GoMap (GoMap String)) :
    decodeMembers members m = .error .typeMismatch := by
  induction members generalizing m with
  | nil => simp at h
  | cons kv rest ih =>
    obtain ⟨k, v⟩ := kv
    cases v with
    | other => rfl
    | null =>
      have h1 : ∃ kv ∈ rest, kv.2 = .other := by
        obtain ⟨x, hx, hxo⟩ := h
        rcases List.mem_cons.mp hx with rfl | hx
        · cases hxo
        · exact ⟨x, hx, hxo⟩
      exact ih h1 _
    | object fields =>
      have h1 : ∃ kv ∈ rest, kv.2 = .other := by
        obtain ⟨x, hx, hxo⟩ := h
        rcases List.mem_cons.mp hx with rfl | hx
        · cases hxo
        · exact ⟨x, hx, hxo⟩
      exact ih h1 _

theorem decodeMembers_ok (members : List (String × JSONMember))
    (h : ∀ kv ∈ members, kv.2 ≠ .other) (m : GoMap (GoMap String)) :
    ∃ adConfig, decodeMembers members m = .ok adConfig := by
  induction members generalizing m with
  | nil => exact ⟨m, rfl⟩
  | cons kv rest ih =>
    obtain ⟨k, v⟩ := kv
    have hrest : ∀ kv ∈ rest, kv.2 ≠ .other := fun x hx => h x (by simp [hx])
    cases v with
    | other => exact absurd rfl (h (k, .other) (by simp))
    | null => exact ih hrest _
    | object fields => exact ih hrest _

/-- The loop over the decoded entries appends, entry after entry, what the extractor returns
for that entry alone. -/
theorem rangeADConfig_eq {Cfg : Type} (env : Environment Cfg) (desiredLRP : DesiredLRP)
    (entries : GoMap (GoMap String)) (acc : List Cfg × List LoggedError) :
    rangeADConfig env desiredLRP entries acc
      = (acc.1 ++ entries.flatMap (fun kv =>
            (env.extractTemplatesFromMap (desiredLRP.ProcessGUID ++ "/" ++ kv.1)
              (convertADVal kv.2) "").1),
         acc.2 ++ entries.flatMap (fun kv =>
            (env.extractTemplatesFromMap (desiredLRP.ProcessGUID ++ "/" ++ kv.1)
              (convertADVal kv.2) "").2.map
                (fun e => (⟨desiredLRP.ProcessGUID, kv.1, e⟩ : LoggedError)))) := by
  induction entries generalizing acc with
  | nil => simp [rangeADConfig]
  | cons kv rest ih =>
    obtain ⟨k, v⟩ := kv
    obtain ⟨c, l⟩ := acc
    simp only [rangeADConfig, ih, List.flatMap_cons, List.append_assoc]

theorem collectLoop_eq {Cfg : Type} (env : Environment Cfg) (lrps : List DesiredLRP)
    (acc : List Cfg × List UnmarshalError) :
    collectLoop env lrps acc
      = (acc.1 ++ lrps.flatMap (fun d => (getConfigsFromDesiredLRP env d).configs),
         acc.2 ++ lrps.flatMap (fun d => (getConfigsFromDesiredLRP env d).err.toList)) := by
  induction lrps generalizing acc with
  | nil => simp [collectLoop]
  | cons d rest ih =>
    obtain ⟨c, p⟩ := acc
    simp only [collectLoop, ih, List.flatMap_cons, List.append_assoc]

/-- C6, as stated, fails: on the payload with the well-formed key `app1` and the key `app2`
whose value is a string, decoding into the map type fails as a whole, so no template is
returned (not the one for `ownerID/app1`), the call returns the decoding error, and nothing
is logged for `app2`. -/
theorem per_key_isolation_counterexample :
    exampleEnvironment.parseJSON exampleOwner.EnvAD = some exampleDocument ∧
    (getConfigsFromDesiredLRP exampleEnvironment exampleOwner).configs = [] ∧
    (getConfigsFromDesiredLRP exampleEnvironment exampleOwner).configs ≠ ["ownerID/app1"] ∧
    (getConfigsFromDesiredLRP exampleEnvironment exampleOwner).err = some .typeMismatch ∧
    (getConfigsFromDesiredLRP exampleEnvironment exampleOwner).logged = [] := by
  have hp : exampleEnvironment.parseJSON exampleOwner.EnvAD = some exampleDocument := by
    simp [exampleEnvironment, exampleOwner]
  have hne : exampleOwner.EnvAD ≠ "" := by decide
  have hu : jsonUnmarshal exampleEnvironment exampleOwner.EnvAD = .error .typeMismatch := by
    simp only [jsonUnmarshal, hp]
    rfl
  have hr : getConfigsFromDesiredLRP exampleEnvironment exampleOwner
      = { configs := [], err := some .typeMismatch, logged := [] } := by
    simp only [getConfigsFromDesiredLRP, hne, if_false, hu]
  refine ⟨hp, ?_, ?_, ?_, ?_⟩ <;> simp [hr]

/-- C6, amended: when the payload is a JSON object, isolation is per key only among keys
whose values are objects or null.  If some key's value is anything else, decoding fails as a
whole: no template is returned, the decoding error is returned and nothing is logged.  If
every key's value is an object or null, the call returns no error, the templates are, key
after key in visiting order, what `extractTemplatesFromMap` returns for that key alone
under the identifier `<ProcessGUID>/<key>`, and the errors it returns for a key are logged
under that process identifier and key. -/
theorem per_key_isolation {Cfg : Type} (env : Environment Cfg) (desiredLRP : DesiredLRP)
    (members : List (String × JSONMember)) (hne : desiredLRP.EnvAD ≠ "")
    (hparse : env.parseJSON desiredLRP.EnvAD = some (.object members)) :
    ((∃ kv ∈ members, kv.2 = .other) →
      (getConfigsFromDesiredLRP env desiredLRP).configs = [] ∧
      (getConfigsFromDesiredLRP env desiredLRP).err = some .typeMismatch ∧
      (getConfigsFromDesiredLRP env desiredLRP).logged = []) ∧
    ((∀ kv ∈ members, kv.2 ≠ .other) →
      ∃ adConfig, decodeMembers members [] = .ok adConfig ∧
        (getConfigsFromDesiredLRP env desiredLRP).err = none ∧
        (getConfigsFromDesiredLRP env desiredLRP).configs
          = (env.rangeOrder adConfig).flatMap (fun kv =>
              (env.extractTemplatesFromMap (desiredLRP.ProcessGUID ++ "/" ++ kv.1)
                (convertADVal kv.2) "").1) ∧
        (getConfigsFromDesiredLRP env desiredLRP).logged
          = (env.rangeOrder adConfig).flatMap (fun kv =>
              (env.extractTemplatesFromMap (desiredLRP.ProcessGUID ++ "/" ++ kv.1)
                (convertADVal kv.2) "").2.map
                  (fun e => (⟨desiredLRP.ProcessGUID, kv.1, e⟩ : LoggedError)))) := by
  constructor
  · intro hother
    have hu : jsonUnmarshal env desiredLRP.EnvAD = .error .typeMismatch := by
      simp only [jsonUnmarshal, hparse, decodeDocument]
      exact decodeMembers_other members hother []
    have hr : getConfigsFromDesiredLRP env desiredLRP
        = { configs := [], err := some .typeMismatch, logged := [] } := by
      simp only [getConfigsFromDesiredLRP, hne, if_false, hu]
    simp [hr]
  · intro hall
    obtain ⟨adConfig, hdec⟩ := decodeMembers_ok members hall []
    have hu : jsonUnmarshal env desiredLRP.EnvAD = .ok adConfig := by
      simp only [jsonUnmarshal, hparse, decodeDocument]
      exact hdec
    refine ⟨adConfig, hdec, ?_, ?_, ?_⟩ <;>
    simp [getConfigsFromDesiredLRP, hne, hu, rangeADConfig_eq]

theorem per_key_isolation_witness :
    (getConfigsFromDesiredLRP exampleEnvironment exampleOwner).configs = [] ∧
    (getConfigsFromDesiredLRP exampleEnvironment exampleSingle).configs = ["process-1/app1"] ∧
    (getConfigsFromDesiredLRP exampleEnvironment exampleSingle).logged = [] := by
  have hp1 : exampleEnvironment.parseJSON exampleOwner.EnvAD
      = some (.object [ ("app1", .object [ ("check_names", "\"[]\""),
          ("init_configs", "\"[]\""), ("instances", "\"[]\"") ]), ("app2", .other) ]) := by
    simp [exampleEnvironment, exampleOwner, exampleDocument]
  have hp2 : exampleEnvironment.parseJSON exampleSingle.EnvAD
      = some (.object [ ("app1", .object [ ("check_names", "[\"http_check\"]"),
          ("init_configs", "[\x7b\x7d]"), ("instances", "[\x7b\x7d]") ]) ]) := by
    have hd : exampleSinglePayload ≠ examplePayload := by decide
    simp [exampleEnvironment, exampleSingle, exampleSingleDocument, hd]
  have h1 := (per_key_isolation exampleEnvironment exampleOwner _ (by decide) hp1).1
    ⟨("app2", .other), by simp, rfl⟩
  obtain ⟨adConfig, hdec, _, hc, hl⟩ :=
    (per_key_isolation exampleEnvironment exampleSingle _ (by decide) hp2).2
      (by simp)
  have hcfg : adConfig = [("app1", [("check_names", "[\"http_check\"]"),
      ("init_configs", "[\x7b\x7d]"), ("instances", "[\x7b\x7d]")])] := by
    simp [decodeMembers, decodeMember, goMapInsert, bind, Except.bind] at hdec
    exact hdec.symm
  subst hcfg
  refine ⟨h1.1, ?_, ?_⟩
  · rw [hc]
    simp [exampleEnvironment, exampleSingle, convertADVal, goMapInsert, goMapLookup]
  · rw [hl]
    simp [exampleEnvironment, exampleSingle, convertADVal, goMapInsert, goMapLookup]

/-- C7. For every snapshot `Collect` returns no error and returns the concatenation, in
snapshot order, of what `getConfigsFromDesiredLRP` returns for each desired LRP (owner
identifier and payload being its `ProcessGUID` and `EnvAD`); an LRP whose payload is empty
or fails to decode contributes no template, and an LRP that contributes nothing leaves the
templates of those before and after it in place. -/
theorem Collect_concatenates {Cfg : Type} (env : Environment Cfg) (bbsCache : BBSCache) :
    (Collect env bbsCache).err = none ∧
    (Collect env bbsCache).configs
      = bbsCache.desiredLRPs.flatMap (fun d => (getConfigsFromDesiredLRP env d).configs) ∧
    (∀ d : DesiredLRP, d.EnvAD = "" → (getConfigsFromDesiredLRP env d).configs = []) ∧
    (∀ (d : DesiredLRP) (e : UnmarshalError), jsonUnmarshal env d.EnvAD = .error e →
      (getConfigsFromDesiredLRP env d).configs = []) ∧
    (∀ (before later : List DesiredLRP) (d : DesiredLRP),
      bbsCache.desiredLRPs = before ++ d :: later →
      (getConfigsFromDesiredLRP env d).configs = [] →
      (Collect env bbsCache).configs
        = before.flatMap (fun d => (getConfigsFromDesiredLRP env d).configs)
          ++ later.flatMap (fun d => (getConfigsFromDesiredLRP env d).configs)) := by
  have hc : (Collect env bbsCache).configs
      = bbsCache.desiredLRPs.flatMap (fun d => (getConfigsFromDesiredLRP env d).configs) := by
    simp [Collect, BBSCache.GetDesiredLRPs, collectLoop_eq]
  refine ⟨rfl, hc, ?_, ?_, ?_⟩
  · intro d hd
    simp [getConfigsFromDesiredLRP, hd]
  · intro d e he
    by_cases hd : d.EnvAD = ""
    · simp [getConfigsFromDesiredLRP, hd]
    · simp [getConfigsFromDesiredLRP, hd, he]
  · intro before later d hsplit hnil
    rw [hc, hsplit]
    simp [List.flatMap_append, hnil]

theorem Collect_concatenates_witness :
    (Collect exampleEnvironment
      { GlobalState.initial.globalBBSCache with desiredLRPs := [exampleSilent, exampleSingle] }
      ).configs
      = (getConfigsFromDesiredLRP exampleEnvironment exampleSingle).configs ∧
    (getConfigsFromDesiredLRP exampleEnvironment exampleSingle).configs
      = ["process-1/app1"] := by
  have h := (Collect_concatenates exampleEnvironment
    { GlobalState.initial.globalBBSCache with
      desiredLRPs := [exampleSilent, exampleSingle] }).2.2.2.2 [] [exampleSingle] exampleSilent
    rfl (by simp [getConfigsFromDesiredLRP, exampleSilent])
  refine ⟨by simpa using h, ?_⟩
  have hd : exampleSinglePayload ≠ examplePayload := by decide
  have hne : exampleSinglePayload ≠ "" := by decide
  simp [getConfigsFromDesiredLRP, exampleSingle, hne, jsonUnmarshal, exampleEnvironment, hd,
    exampleSingleDocument, decodeDocument, decodeMembers, decodeMember, goMapInsert,
    rangeADConfig, convertADVal, goMapLookup, bind, Except.bind]

/-- C8. A record with a nil root action and a process identifier of at least 36 characters
converts to a desired LRP with empty `EnvAD`, empty `EnvVcapServices` and the same
`ProcessGUID`; for that LRP, whatever the JSON decoder and the extractor would do,
`getConfigsFromDesiredLRP` returns no template, no error and logs nothing, and `Collect`
over a snapshot holding just that LRP returns no template, no error and prints nothing. -/
theorem nil_action_round_trip (processGuid : String) (h36 : 36 ≤ processGuid.length) :
    ∃ d, DesiredLRPFromBBSModel ⟨processGuid, .nil⟩ = .ok d ∧
      d.EnvAD = "" ∧ d.EnvVcapServices = "" ∧ d.ProcessGUID = processGuid ∧
      ∀ (Cfg : Type) (env : Environment Cfg),
        (getConfigsFromDesiredLRP env d).configs = [] ∧
        (getConfigsFromDesiredLRP env d).err = none ∧
        (getConfigsFromDesiredLRP env d).logged = [] ∧
        ∀ bbsCache : BBSCache, bbsCache.desiredLRPs = [d] →
          (Collect env bbsCache).configs = [] ∧ (Collect env bbsCache).err = none ∧
          (Collect env bbsCache).printed = [] := by
  have hbytes : 36 ≤ processGuid.utf8ByteSize :=
    Nat.le_trans h36 (length_le_utf8ByteSize _)
  have hq : actionQueueLoop [Action.nil] [] = [] := by
    rw [actionQueueLoop, actionQueueLoop]
  obtain ⟨d, hd, hAD, hVS, hP⟩ := DesiredLRPFromBBSModel_fields ⟨processGuid, .nil⟩ hbytes
  simp only [hq, scanActionEnvs] at hAD hVS
  refine ⟨d, hd, hAD, hVS, hP, ?_⟩
  intro Cfg env
  have hr : getConfigsFromDesiredLRP env d = { configs := [], err := none, logged := [] } := by
    simp [getConfigsFromDesiredLRP, hAD]
  refine ⟨by rw [hr], by rw [hr], by rw [hr], ?_⟩
  intro bbsCache hb
  simp [Collect, BBSCache.GetDesiredLRPs, hb, collectLoop, hr]

theorem nil_action_round_trip_witness :
    ∃ d, DesiredLRPFromBBSModel ⟨"0f4d6d2c-6b1e-4c1a-9d3e-7a5b8c9d0e1f", .nil⟩ = .ok d ∧
      d.EnvAD = "" ∧ d.EnvVcapServices = "" ∧
      (getConfigsFromDesiredLRP exampleEnvironment d).configs = [] := by
  obtain ⟨d, h1, h2, h3, _, h5⟩ :=
    nil_action_round_trip "0f4d6d2c-6b1e-4c1a-9d3e-7a5b8c9d0e1f" (by decide)
  exact ⟨d, h1, h2, h3, (h5 String exampleEnvironment).1⟩

end providers
